import Mathlib

/-
Verification development for the Space Invaders arcade-board emulator
(src/src/main.rs). The definitions below are a shallow embedding of the
Rust source: machine integers (u8, u16, u64, usize) become Nat with
explicit masking/mod where the source wraps or truncates, arrays and
Vec become total functions Nat → Nat, and the scheduler's per-iteration
behaviour becomes an explicit step function on a small state record.
-/

namespace SpaceInvadersEmu

/-! ## Constants (src/src/main.rs lines 33-56) -/

def SCREEN_WIDTH_PIXELS : Nat := 256

def SCREEN_HEIGHT_PIXELS : Nat := 224

def DISPLAY_WIDTH_PIXELS : Nat := SCREEN_HEIGHT_PIXELS

def DISPLAY_HEIGHT_PIXELS : Nat := SCREEN_WIDTH_PIXELS

def SCREEN_SIZE_PIXELS : Nat := SCREEN_WIDTH_PIXELS * SCREEN_HEIGHT_PIXELS

def DISPLAY_BUFFER_SIZE : Nat := SCREEN_SIZE_PIXELS * 4

def DISPLAY_TIME_NANO_SEC : Nat := 16666667

def ROM_SIZE : Nat := 0x2000

def RAM_SIZE : Nat := 0x400

def VRAM_SIZE : Nat := 0x1C00

def ROM_START : Nat := 0

def RAM_START : Nat := 0x2000

def VRAM_START : Nat := 0x2400

def ROM_END : Nat := ROM_START + ROM_SIZE

def RAM_END : Nat := RAM_START + RAM_SIZE

def VRAM_END : Nat := VRAM_START + VRAM_SIZE

def RAM_MASK : Nat := 0x3FFF

/-! ## Shift register (src/src/main.rs lines 279-303)

A 16-bit register plus a 3-bit shift amount.  `register : u16` is
modelled as a Nat kept below 2^16 by the operations themselves, and
`amount : u8` as a Nat kept below 8 by input_amount's masking. -/

structure ShiftRegister where
  register : Nat
  amount : Nat
deriving Repr, DecidableEq

namespace ShiftRegister

/-- ShiftRegister::new(): register = 0, amount = 0. -/
def new : ShiftRegister := { register := 0, amount := 0 }

/-- ShiftRegister::input_data: `self.register = ((input as u16) << 8) | (self.register >> 8)`.
The Rust parameter is u8, so the embedded input is masked to a byte. -/
def input_data (sr : ShiftRegister) (input : Nat) : ShiftRegister :=
  { sr with register := ((input % 256) <<< 8) ||| (sr.register >>> 8) }

/-- ShiftRegister::input_amount: `self.amount = amount & 0b00000111`. -/
def input_amount (sr : ShiftRegister) (amount : Nat) : ShiftRegister :=
  { sr with amount := amount &&& 0b00000111 }

/-- ShiftRegister::output: `(self.register >> (8 - self.amount)) as u8`.
The `as u8` cast is the final `% 256`. -/
def output (sr : ShiftRegister) : Nat :=
  (sr.register >>> (8 - sr.amount)) % 256

end ShiftRegister

end SpaceInvadersEmu

namespace SpaceInvadersEmu

/-! ## Memory image (src/src/main.rs lines 58-197)

`rom : [u8; ROM_SIZE]`, `ram : [u8; RAM_SIZE]` and the RGBA-expanded
`vram : Vec<u8>` (of size DISPLAY_BUFFER_SIZE) are modelled as total
functions Nat → Nat; array stores become pointwise functional updates. -/

structure SpaceInvadersMemory where
  rom : Nat → Nat
  ram : Nat → Nat
  vram : Nat → Nat

/-- SpaceInvadersMemory::get_display_pixel_address (lines 137-143):
rotates native pixel `address*8 + pixel` into the display pixel index. -/
def get_display_pixel_address (address : Nat) (pixel : Nat) : Nat :=
  let pixel_address := address * 8 + pixel
  let display_col := pixel_address / SCREEN_WIDTH_PIXELS
  let display_row := SCREEN_WIDTH_PIXELS - 1 - (pixel_address % SCREEN_WIDTH_PIXELS)
  display_row * DISPLAY_WIDTH_PIXELS + display_col

/-- One iteration of the write_vram loop body: store a 4-byte RGBA pixel
(white = FF FF FF FF, black = 00 00 00 FF) at byte address `ba`. -/
def writePixel (vr : Nat → Nat) (ba : Nat) (white : Bool) : Nat → Nat :=
  fun j =>
    if j = ba ∨ j = ba + 1 ∨ j = ba + 2 then (if white then 0xFF else 0x00)
    else if j = ba + 3 then 0xFF
    else vr j

/-- SpaceInvadersMemory::write_vram (lines 145-175): expands the 8 bits of
`val` into 8 RGBA pixels.  Bit i of `val` goes to display row
`starting_pixel_display_row - i` of column `starting_pixel_display_col`;
`mask & val != 0` is bit i of val, i.e. `Nat.testBit val i`. -/
def write_vram (m : SpaceInvadersMemory) (address : Nat) (val : Nat) : SpaceInvadersMemory :=
  let starting_pixel_address := 8 * address
  let starting_pixel_display_col := starting_pixel_address / SCREEN_WIDTH_PIXELS
  let starting_pixel_display_row :=
    SCREEN_WIDTH_PIXELS - 1 - (starting_pixel_address % SCREEN_WIDTH_PIXELS)
  let newvr := (List.range 8).foldl
    (fun vr i => writePixel vr
      (((starting_pixel_display_row - i) * DISPLAY_WIDTH_PIXELS + starting_pixel_display_col) * 4)
      (Nat.testBit val i)) m.vram
  { m with vram := newvr }

/-- Bit-reassembly loop shared by read_vram: collect bits i in 0..8 where
`f i` holds, ORing in `1 << i`. -/
def readBits (f : Nat → Bool) : Nat :=
  (List.range 8).foldl (fun byte i => if f i then byte ||| (1 <<< i) else byte) 0

/-- SpaceInvadersMemory::read_vram (lines 177-188): reads the first RGBA
byte of each of the 8 expanded pixels; a nonzero byte sets bit i. -/
def read_vram (m : SpaceInvadersMemory) (address : Nat) : Nat :=
  readBits (fun i => m.vram (get_display_pixel_address address i * 4) != 0)

/-- MemoryAccess::read_byte (lines 65-77): mask to the 14-bit window, then
region lookup. -/
def read_byte (m : SpaceInvadersMemory) (addr : Nat) : Nat :=
  let a := addr &&& RAM_MASK
  if a < ROM_END then m.rom a
  else if a < RAM_END then m.ram (a - RAM_START)
  else if a < VRAM_END then read_vram m (a - VRAM_START)
  else 0

/-- MemoryAccess::write_byte (lines 79-87): RAM and VRAM regions are
writable; a masked address in the ROM region matches no branch. -/
def write_byte (m : SpaceInvadersMemory) (addr val : Nat) : SpaceInvadersMemory :=
  let a := addr &&& RAM_MASK
  if RAM_START ≤ a ∧ a < RAM_END then
    { m with ram := fun x => if x = a - RAM_START then val else m.ram x }
  else if VRAM_START ≤ a ∧ a < VRAM_END then
    write_vram m (a - VRAM_START) val
  else m

/-- MemoryAccess::write_bytes (lines 110-125): `copy_from_slice` into rom
if the masked address is below ROM_END, into ram if it lies in the RAM
region, and a per-byte write_vram loop guarded by the (unsatisfiable)
condition `VRAM_START <= addr && VRAM_END <= addr`. -/
def write_bytes (m : SpaceInvadersMemory) (addr : Nat) (val : List Nat) : SpaceInvadersMemory :=
  let a := addr &&& RAM_MASK
  if a < ROM_END then
    { m with rom := fun x => if a ≤ x ∧ x < a + val.length then val.getD (x - a) 0 else m.rom x }
  else if RAM_START ≤ a ∧ a < RAM_END then
    { m with ram := fun x =>
        if a - RAM_START ≤ x ∧ x < a - RAM_START + val.length
        then val.getD (x - (a - RAM_START)) 0 else m.ram x }
  else if VRAM_START ≤ a ∧ VRAM_END ≤ a then
    (List.range val.length).foldl (fun mm i => write_vram mm (a + i) (val.getD i 0)) m
  else m

/-- The all-zero memory image (SpaceInvadersMemory::new with a zero rom):
ram and the RGBA vram buffer start zero-initialized. -/
def zeroMemory : SpaceInvadersMemory :=
  { rom := fun _ => 0, ram := fun _ => 0, vram := fun _ => 0 }

/-! ## Theorems for claims C1 and C2 -/

/-- C1: starting from the reset state, feeding 0xAA, 0xFF, 0x12 leaves the
internal 16-bit register at 0xAA00, 0xFFAA, 0x12FF after each call; with the
register at 0x12FF, output returns 0x12 at amount 0, 0b01001011 at amount 2
and 0b01111111 at amount 7. -/
theorem shift_register_round_trip :
    (ShiftRegister.new.input_data 0xAA).register = 0xAA00 ∧
    ((ShiftRegister.new.input_data 0xAA).input_data 0xFF).register = 0xFFAA ∧
    (((ShiftRegister.new.input_data 0xAA).input_data 0xFF).input_data 0x12).register = 0x12FF ∧
    ((((ShiftRegister.new.input_data 0xAA).input_data 0xFF).input_data 0x12).input_amount 0).output = 0x12 ∧
    ((((ShiftRegister.new.input_data 0xAA).input_data 0xFF).input_data 0x12).input_amount 2).output = 0b01001011 ∧
    ((((ShiftRegister.new.input_data 0xAA).input_data 0xFF).input_data 0x12).input_amount 7).output = 0b01111111 := by
  decide

/-- C2 counterexample: with the register at 0x12FF and amount 0, output
returns 0x12 (the high byte), not the low byte 0xFF claimed by the spec. -/
theorem shift_register_amount_zero_not_low_byte :
    ¬ ({ register := 0x12FF, amount := 0 : ShiftRegister }.output
        = 0x12FF % 256) := by
  decide

/-- C2 amended: for every 16-bit register value, when the shift amount is 0,
output returns the HIGH byte of the register unshifted
(`register >> 8`), not the low byte. -/
theorem shift_register_amount_zero_high_byte (r : Nat) (h : r < 65536) :
    ({ register := r, amount := 0 : ShiftRegister }.output) = r / 256 := by
  unfold ShiftRegister.output
  simp only [Nat.shiftRight_eq_div_pow]
  norm_num
  omega

/-- Witness for the C2 amended theorem at register = 0x12FF. -/
theorem shift_register_amount_zero_high_byte_witness :
    ({ register := 0x12FF, amount := 0 : ShiftRegister }.output) = 0x12FF / 256 :=
  shift_register_amount_zero_high_byte 0x12FF (by decide)

/-! ## Theorems for claims C3, C4, C10 (memory mirroring and regions) -/

/-- Masking with RAM_MASK = 0x3FFF is reduction mod 0x4000. -/
theorem land_ram_mask (a : Nat) : a &&& RAM_MASK = a % 16384 := by
  have h1 : RAM_MASK = 2 ^ 14 - 1 := by norm_num [RAM_MASK]
  have h2 : (16384 : Nat) = 2 ^ 14 := by norm_num
  rw [h1, h2]
  apply Nat.eq_of_testBit_eq
  intro k
  rw [Nat.testBit_land, Nat.testBit_mod_two_pow, Nat.testBit_two_pow_sub_one, Bool.and_comm]

/-- Adding 0x4000 to a 16-bit address (wrapped to 16 bits) does not change
its masked 14-bit value. -/
theorem mask_mirror (addr : Nat) (h : addr < 65536) :
    ((addr + 0x4000) % 65536) &&& RAM_MASK = addr &&& RAM_MASK := by
  rw [land_ram_mask, land_ram_mask]
  omega

/-- C3: for every 16-bit address A and byte v, reading A and reading
A + 0x4000 (wrapped to 16 bits) return the same byte; the same holds after
writing v to A; and writing v to A + 0x4000 produces the same memory as
writing v to A — every single-byte access masks the address into the
14-bit mirrored window before region lookup. -/
theorem address_mirroring (m : SpaceInvadersMemory) (addr v : Nat) (h : addr < 65536) :
    read_byte m ((addr + 0x4000) % 65536) = read_byte m addr ∧
    read_byte (write_byte m addr v) ((addr + 0x4000) % 65536)
      = read_byte (write_byte m addr v) addr ∧
    write_byte m ((addr + 0x4000) % 65536) v = write_byte m addr v := by
  refine ⟨?_, ?_, ?_⟩
  · unfold read_byte
    rw [mask_mirror addr h]
  · unfold read_byte
    rw [mask_mirror addr h]
  · unfold write_byte
    rw [mask_mirror addr h]

/-- Witness for C3 at m = zeroMemory, addr = 0x2000, v = 5. -/
theorem address_mirroring_witness :
    read_byte zeroMemory ((0x2000 + 0x4000) % 65536) = read_byte zeroMemory 0x2000 ∧
    read_byte (write_byte zeroMemory 0x2000 5) ((0x2000 + 0x4000) % 65536)
      = read_byte (write_byte zeroMemory 0x2000 5) 0x2000 ∧
    write_byte zeroMemory ((0x2000 + 0x4000) % 65536) 5 = write_byte zeroMemory 0x2000 5 :=
  address_mirroring zeroMemory 0x2000 5 (by decide)

/-- C4 failing input: write_bytes with masked address 0 (the ROM region)
overwrites ROM — here rom[0] becomes 0x42 — even though the single-byte
write_byte at the same address leaves ROM untouched.  The code contradicts
the spec's rule that the Program region is read-only after load. -/
theorem write_bytes_overwrites_rom :
    (write_bytes zeroMemory 0 [0x42]).rom 0 = 0x42 ∧
    zeroMemory.rom 0 = 0 ∧
    (write_byte zeroMemory 0 0x42).rom 0 = 0 := by
  refine ⟨?_, rfl, rfl⟩
  decide

/-- C10: for every address whose masked 14-bit value lies in the Video
region and every non-empty byte list, write_bytes returns the memory
unchanged: the video branch condition `VRAM_START <= a && VRAM_END <= a`
can never hold for a masked address, so bulk writes aimed at video memory
are silently dropped. -/
theorem write_bytes_video_noop (m : SpaceInvadersMemory) (addr : Nat) (val : List Nat)
    (h1 : VRAM_START ≤ addr &&& RAM_MASK) (h2 : addr &&& RAM_MASK < VRAM_END)
    (h3 : val ≠ []) :
    write_bytes m addr val = m := by
  unfold write_bytes
  simp only [ROM_END, ROM_START, ROM_SIZE, RAM_START, RAM_END, RAM_SIZE,
    VRAM_START, VRAM_END, VRAM_SIZE] at *
  split_ifs with hA hB hC
  · exfalso; omega
  · exfalso; omega
  · exfalso; omega
  · rfl

/-- Witness for C10 at m = zeroMemory, addr = 0x2400, val = [1]. -/
theorem write_bytes_video_noop_witness :
    write_bytes zeroMemory 0x2400 [1] = zeroMemory :=
  write_bytes_video_noop zeroMemory 0x2400 [1] (by decide) (by decide) (by decide)

/-! ## Theorems for claim C9 (vram RGBA expansion is lossless) -/

/-- The rotated pixel index of bit i of vram byte `a`, in the canonical
form used by write_vram's loop (column fixed, row decreasing with i). -/
theorem gdpa_eq (a i : Nat) (hi : i < 8) :
    get_display_pixel_address a i
      = (256 - 1 - 8 * a % 256 - i) * 224 + 8 * a / 256 := by
  simp only [get_display_pixel_address, SCREEN_WIDTH_PIXELS, DISPLAY_WIDTH_PIXELS,
    SCREEN_HEIGHT_PIXELS]
  omega

/-- A byte outside the 4-byte slot written by writePixel is unchanged. -/
theorem writePixel_ne (vr : Nat → Nat) (ba p : Nat) (hw : Bool)
    (h0 : p ≠ ba) (h1 : p ≠ ba + 1) (h2 : p ≠ ba + 2) (h3 : p ≠ ba + 3) :
    writePixel vr ba hw p = vr p := by
  unfold writePixel
  rw [if_neg (by tauto), if_neg h3]

/-- Evaluating the write_vram pixel loop at the byte address of bit i:
the loop visits pairwise-disjoint 4-byte pixel slots (the rows written for
distinct bits differ, so the byte addresses differ by multiples of 896),
hence the slot for bit i holds exactly bit i's colour. -/
theorem fold_write_at (v row0 col : Nat) (h7 : 7 ≤ row0) (L : List Nat) :
    ∀ (vr : Nat → Nat) (i : Nat), i < 8 → (∀ j ∈ L, j < 8) →
    (L.foldl (fun vr j => writePixel vr (((row0 - j) * 224 + col) * 4) (Nat.testBit v j)) vr)
        (((row0 - i) * 224 + col) * 4)
      = if i ∈ L then (if v.testBit i then 255 else 0)
        else vr (((row0 - i) * 224 + col) * 4) := by
  induction L with
  | nil =>
    intro vr i hi hL
    simp
  | cons j L ih =>
    intro vr i hi hL
    simp only [List.foldl_cons]
    rw [ih _ i hi (fun x hx => hL x (List.mem_cons_of_mem j hx))]
    by_cases hmem : i ∈ L
    · simp [hmem, List.mem_cons]
    · by_cases hij : i = j
      · subst hij
        simp [hmem, List.mem_cons, writePixel]
      · have hj : j < 8 := hL j (List.mem_cons_self j L)
        rw [writePixel_ne vr (((row0 - j) * 224 + col) * 4) (((row0 - i) * 224 + col) * 4)
          (v.testBit j) (by omega) (by omega) (by omega) (by omega)]
        simp [List.mem_cons, hij, hmem]

/-- After write_vram m a v, the first RGBA byte of the pixel slot for bit i
is 255 when bit i of v is set and 0 when it is clear. -/
theorem write_vram_read_pixel (m : SpaceInvadersMemory) (a v i : Nat) (hi : i < 8) :
    (write_vram m a v).vram (get_display_pixel_address a i * 4)
      = if v.testBit i then 255 else 0 := by
  rw [gdpa_eq a i hi]
  show ((List.range 8).foldl
      (fun vr j => writePixel vr
        (((256 - 1 - 8 * a % 256 - j) * 224 + 8 * a / 256) * 4) (Nat.testBit v j))
      m.vram) (((256 - 1 - 8 * a % 256 - i) * 224 + 8 * a / 256) * 4)
    = if v.testBit i then 255 else 0
  rw [fold_write_at v (256 - 1 - 8 * a % 256) (8 * a / 256) (by omega) (List.range 8)
    m.vram i hi (fun j hj => List.mem_range.mp hj)]
  simp [List.mem_range, hi]

/-- readBits only looks at its argument on bit positions 0..7. -/
theorem readBits_congr (f g : Nat → Bool) (h : ∀ i, i < 8 → f i = g i) :
    readBits f = readBits g := by
  unfold readBits
  rw [show List.range 8 = [0, 1, 2, 3, 4, 5, 6, 7] from rfl]
  simp only [List.foldl]
  rw [h 0 (by omega), h 1 (by omega), h 2 (by omega), h 3 (by omega),
    h 4 (by omega), h 5 (by omega), h 6 (by omega), h 7 (by omega)]

set_option maxRecDepth 8000 in
/-- Reassembling the low 8 bits of a byte recovers the byte. -/
theorem readBits_testBit (v : Nat) (hv : v < 256) :
    readBits (fun i => Nat.testBit v i) = v := by
  have h : ∀ x : Fin 256, readBits (fun i => Nat.testBit x.val i) = x.val := by decide
  exact h ⟨v, hv⟩

/-- C9: the RGBA expansion of video memory is lossless — for every
video-region offset a and byte v, write_vram(a, v) followed by
read_vram(a) returns exactly v: the writer's bit-to-pixel rotation and the
reader's pixel-to-bit mapping are inverses. -/
theorem vram_round_trip (m : SpaceInvadersMemory) (a v : Nat)
    (ha : a < VRAM_SIZE) (hv : v < 256) :
    read_vram (write_vram m a v) a = v := by
  unfold read_vram
  rw [readBits_congr _ (fun i => Nat.testBit v i) ?_]
  · exact readBits_testBit v hv
  · intro i hi
    rw [write_vram_read_pixel m a v i hi]
    cases hb : Nat.testBit v i <;> simp [hb]

/-- Witness for C9 at m = zeroMemory, a = 0, v = 0xA5. -/
theorem vram_round_trip_witness :
    read_vram (write_vram zeroMemory 0 0xA5) 0 = 0xA5 :=
  vram_round_trip zeroMemory 0 0xA5 (by decide) (by decide)

/-! ## ROM loading (src/src/main.rs lines 305-317) and claim C5

`load_rom` opens the file (an open failure is returned to the caller),
zero-initializes an ROM_SIZE buffer, performs ONE `file.read(&mut buffer)`
call and DISCARDS the returned byte count (`Ok(_) => {}`), then returns
`Ok(buffer)`.  The file is modelled as `Option (List Nat)`: `none` for an
open failure, `some data` for a file whose read yields `min data.length
ROM_SIZE` bytes into the zeroed buffer. -/

def load_rom (file : Option (List Nat)) : Option (List Nat) :=
  match file with
  | none => none
  | some data => some (data.take ROM_SIZE ++ List.replicate (ROM_SIZE - data.length) 0)

/-- C5 failing input: a ROM file holding the single byte 0xAB (a short
read of 1 byte out of 0x2000).  load_rom succeeds and returns the
zero-padded buffer instead of surfacing an error — the read count is
discarded, contradicting the spec's rule that a short read is an error. -/
theorem load_rom_short_read_succeeds :
    (load_rom (some [0xAB])).isSome = true ∧
    load_rom (some [0xAB]) = some (0xAB :: List.replicate (ROM_SIZE - 1) 0) := by
  exact ⟨rfl, rfl⟩

/-! ## Sound-port edge decoding (src/src/main.rs lines 409-431) and C7

A write of `cur` to output port 3 with previous latch `last` is decoded
through SpaceInvadersAudioOutput1, whose modular_bitfield layout puts ufo
at bit 0, shot at bit 1, flash at bit 2, invader_die at bit 3,
extended_play at bit 4.  The emitted side effects, in source order: a ufo
rising edge unpauses the looping ufo sound and a falling edge pauses it;
rising edges of shot, flash and invader_die play one-shot sounds.  No
branch examines extended_play. -/

inductive SoundEvent where
  | ufoUnpause
  | ufoPause
  | playShot
  | playFlash
  | playInvaderDie
deriving Repr, DecidableEq

def port3Events (last cur : Nat) : List SoundEvent :=
  (if cur.testBit 0 ∧ ¬ last.testBit 0 then [SoundEvent.ufoUnpause]
   else if ¬ cur.testBit 0 ∧ last.testBit 0 then [SoundEvent.ufoPause] else [])
  ++ (if cur.testBit 1 ∧ ¬ last.testBit 1 then [SoundEvent.playShot] else [])
  ++ (if cur.testBit 2 ∧ ¬ last.testBit 2 then [SoundEvent.playFlash] else [])
  ++ (if cur.testBit 3 ∧ ¬ last.testBit 3 then [SoundEvent.playInvaderDie] else [])

/-- C7 counterexample: writing 0x10 after 0x00 is a rising edge of the
extended-play flag (bit 4), yet the port-3 handler emits no event at all —
the code never examines extended_play, so the claim that every flag in the
set {ufo, shot, flash, invader-die, extended-play} yields a start event on
its rising edge is false. -/
theorem extended_play_rising_edge_silent :
    Nat.testBit 0x10 4 = true ∧ Nat.testBit 0x00 4 = false ∧
    port3Events 0x00 0x10 = [] := by
  decide

/-- C7 amended: for the four wired flags (ufo loop, shot, flash,
invader-die) a start event is emitted exactly on a rising edge; the ufo
falling edge emits the pause event and falling edges of the one-shot flags
emit nothing; writing the same byte twice emits no events on the second
write; the extended-play flag (bit 4) is decoded but never triggers any
event. -/
theorem port3_edge_events (last cur : Nat) :
    (SoundEvent.ufoUnpause ∈ port3Events last cur ↔
      (cur.testBit 0 = true ∧ last.testBit 0 = false)) ∧
    (SoundEvent.ufoPause ∈ port3Events last cur ↔
      (cur.testBit 0 = false ∧ last.testBit 0 = true)) ∧
    (SoundEvent.playShot ∈ port3Events last cur ↔
      (cur.testBit 1 = true ∧ last.testBit 1 = false)) ∧
    (SoundEvent.playFlash ∈ port3Events last cur ↔
      (cur.testBit 2 = true ∧ last.testBit 2 = false)) ∧
    (SoundEvent.playInvaderDie ∈ port3Events last cur ↔
      (cur.testBit 3 = true ∧ last.testBit 3 = false)) ∧
    port3Events cur cur = [] := by
  unfold port3Events
  refine ⟨?_, ?_, ?_, ?_, ?_, ?_⟩ <;>
    · split_ifs <;> simp_all <;> omega

/-! ## Input-port dispatch (src/src/main.rs lines 461-470) and C8

When `cpu.awaiting_input()` holds, the emulator loop resolves the active
port: 0, 1, 2 return the three atomic input latches, 3 returns the shift
register's output, anything else returns 0. -/

def input_dispatch (in0 in1 in2 : Nat) (sr : ShiftRegister) (port : Nat) : Nat :=
  match port with
  | 0 => in0
  | 1 => in1
  | 2 => in2
  | 3 => sr.output
  | _ => 0

/-- C8: the dispatcher returns the system/coin latch for port 0, the
player-1 latch for port 1, the player-2 latch for port 2, the shift
register's current output for port 3, and zero for every other port. -/
theorem input_dispatch_ports (in0 in1 in2 : Nat) (sr : ShiftRegister) :
    input_dispatch in0 in1 in2 sr 0 = in0 ∧
    input_dispatch in0 in1 in2 sr 1 = in1 ∧
    input_dispatch in0 in1 in2 sr 2 = in2 ∧
    input_dispatch in0 in1 in2 sr 3 = sr.output ∧
    ∀ p, 4 ≤ p → input_dispatch in0 in1 in2 sr p = 0 := by
  refine ⟨rfl, rfl, rfl, rfl, ?_⟩
  intro p hp
  obtain ⟨q, rfl⟩ : ∃ q, p = q + 4 := ⟨p - 4, by omega⟩
  rfl

/-- Witness for C8 at concrete latches 11, 22, 33 and port 7. -/
theorem input_dispatch_ports_witness :
    input_dispatch 11 22 33 ShiftRegister.new 7 = 0 :=
  (input_dispatch_ports 11 22 33 ShiftRegister.new).2.2.2.2 7 (by decide)

/-! ## Timing and interrupt scheduler (src/src/main.rs lines 387-389,
475-490) and claim C6

Per loop iteration, after the CPU step consumes `cpu_cycles`, the loop
adds `cpu_cycles * CYCLE_TIME_NANO_SECS` nanoseconds (a u64
wrapping_add, modelled as addition mod 2^64) to `emu_clock` and then
fires AT MOST ONE interrupt: RST_3 (end-of-frame/display) when
`next_display_time <= emu_clock`, else RST_2 (mid-frame/screen) when
`next_screen_int_time <= emu_clock`; the fired mark re-arms by one frame
period DISPLAY_TIME_NANO_SEC.  The per-step duration `dt` is kept
abstract since CYCLE_TIME_NANO_SECS lives in the external CPU crate.
The RST_3 branch also publishes the frame mirror; that side effect is
outside the interrupt-order state modelled here. -/

inductive IntSignal where
  | RST_2
  | RST_3
deriving Repr, DecidableEq

structure SchedState where
  emu_clock : Nat
  next_display_time : Nat
  next_screen_int_time : Nat
deriving Repr, DecidableEq

def U64_MOD : Nat := 2 ^ 64

def schedStep (s : SchedState) (dt : Nat) : SchedState × Option IntSignal :=
  let clock := (s.emu_clock + dt) % U64_MOD
  if s.next_display_time ≤ clock then
    ({ emu_clock := clock,
       next_display_time := (s.next_display_time + DISPLAY_TIME_NANO_SEC) % U64_MOD,
       next_screen_int_time := s.next_screen_int_time }, some IntSignal.RST_3)
  else if s.next_screen_int_time ≤ clock then
    ({ emu_clock := clock,
       next_display_time := s.next_display_time,
       next_screen_int_time := (s.next_screen_int_time + DISPLAY_TIME_NANO_SEC) % U64_MOD },
     some IntSignal.RST_2)
  else
    ({ s with emu_clock := clock }, none)

def schedRun (s : SchedState) : List Nat → SchedState × List IntSignal
  | [] => (s, [])
  | dt :: rest =>
    let step := schedStep s dt
    let next := schedRun step.1 rest
    (next.1, step.2.toList ++ next.2)

/-- The initial schedule state (lines 387-389): emu_clock = 0,
next_display_time = 0, next_screen_int_time = 7_142_857. -/
def initSchedState : SchedState :=
  { emu_clock := 0, next_display_time := 0, next_screen_int_time := 7142857 }

/-- The strictly alternating interrupt stream of length n; the flag says
which signal comes next (false: RST_3 next, true: RST_2 next). -/
def altSignals : Bool → Nat → List IntSignal
  | _, 0 => []
  | false, n + 1 => IntSignal.RST_3 :: altSignals true n
  | true, n + 1 => IntSignal.RST_2 :: altSignals false n

theorem altSignals_length : ∀ (b : Bool) (n : Nat), (altSignals b n).length = n := by
  intro b n
  induction n generalizing b with
  | zero => cases b <;> rfl
  | succ n ih => cases b <;> simp [altSignals, ih]

/-- C6 counterexample: starting from the initial schedule state, the very
first step fires RST_3 — the end-of-frame/display interrupt — because
next_display_time is initialized to 0, so the mid-frame screen interrupt
is NOT the first to fire. -/
theorem first_interrupt_is_display :
    (schedRun initSchedState [2000]).2 = [IntSignal.RST_3] := by
  decide

/-- schedStep with no u64 wraparound. -/
theorem schedStep_nowrap (s : SchedState) (dt : Nat)
    (h1 : s.emu_clock + dt < 2 ^ 64)
    (h2 : s.next_display_time + DISPLAY_TIME_NANO_SEC < 2 ^ 64)
    (h3 : s.next_screen_int_time + DISPLAY_TIME_NANO_SEC < 2 ^ 64) :
    schedStep s dt =
      if s.next_display_time ≤ s.emu_clock + dt then
        ({ emu_clock := s.emu_clock + dt,
           next_display_time := s.next_display_time + DISPLAY_TIME_NANO_SEC,
           next_screen_int_time := s.next_screen_int_time }, some IntSignal.RST_3)
      else if s.next_screen_int_time ≤ s.emu_clock + dt then
        ({ emu_clock := s.emu_clock + dt,
           next_display_time := s.next_display_time,
           next_screen_int_time := s.next_screen_int_time + DISPLAY_TIME_NANO_SEC },
         some IntSignal.RST_2)
      else ({ s with emu_clock := s.emu_clock + dt }, none) := by
  unfold schedStep U64_MOD
  rw [Nat.mod_eq_of_lt h1, Nat.mod_eq_of_lt h2, Nat.mod_eq_of_lt h3]

/-- Invariant when the display interrupt is the next to fire (u frames
completed): the display mark sits at the frame boundary u·16666667 ns,
the screen mark one mid-frame offset past it, and the clock has neither
passed the display mark nor fallen a full frame period behind it. -/
def InvDisplayNext (s : SchedState) (u : Nat) : Prop :=
  s.next_display_time = u * 16666667 ∧
  s.next_screen_int_time = u * 16666667 + 7142857 ∧
  s.emu_clock ≤ s.next_display_time ∧
  s.next_display_time ≤ s.emu_clock + 16666667

/-- Invariant when the screen interrupt is the next to fire. -/
def InvScreenNext (s : SchedState) (u : Nat) : Prop :=
  s.next_display_time = (u + 1) * 16666667 ∧
  s.next_screen_int_time = u * 16666667 + 7142857 ∧
  s.emu_clock ≤ s.next_screen_int_time ∧
  s.next_display_time ≤ s.emu_clock + 16666667

/-- Induction core for C6: from either invariant, a run whose per-step
durations stay at or below the mid-frame offset 7_142_857 ns produces a
strictly alternating interrupt stream, starting with whichever signal
the invariant says is next (b = true: RST_2 next, b = false: RST_3
next). -/
theorem schedRun_alternates_aux (dts : List Nat) :
    ∀ (s : SchedState) (u : Nat) (b : Bool),
    (∀ dt ∈ dts, dt ≤ 7142857) →
    s.emu_clock + dts.length * 7142857 + 3 * 16666667 < 2 ^ 64 →
    (if b then InvScreenNext s u else InvDisplayNext s u) →
    ∃ n, (schedRun s dts).2 = altSignals b n := by
  induction dts with
  | nil =>
    intro s u b hdts hbound hinv
    exact ⟨0, by cases b <;> rfl⟩
  | cons dt rest ih =>
    intro s u b hdts hbound hinv
    have hdt1 : dt ≤ 7142857 := hdts dt (List.mem_cons_self dt rest)
    have hrest : ∀ d ∈ rest, d ≤ 7142857 := fun d hd => hdts d (List.mem_cons_of_mem dt hd)
    simp only [List.length_cons] at hbound
    have hP : DISPLAY_TIME_NANO_SEC = 16666667 := rfl
    cases b with
    | false =>
      obtain ⟨hnd, hns, hcle, hndle⟩ := hinv
      have h1 : s.emu_clock + dt < 2 ^ 64 := by omega
      have h2 : s.next_display_time + DISPLAY_TIME_NANO_SEC < 2 ^ 64 := by rw [hP]; omega
      have h3 : s.next_screen_int_time + DISPLAY_TIME_NANO_SEC < 2 ^ 64 := by rw [hP]; omega
      by_cases hfire : s.next_display_time ≤ s.emu_clock + dt
      · -- the display interrupt fires; switch to the screen-next invariant
        have hstep : schedStep s dt =
            ({ emu_clock := s.emu_clock + dt,
               next_display_time := s.next_display_time + DISPLAY_TIME_NANO_SEC,
               next_screen_int_time := s.next_screen_int_time }, some IntSignal.RST_3) := by
          rw [schedStep_nowrap s dt h1 h2 h3, if_pos hfire]
        have hinv1 : InvScreenNext
            { emu_clock := s.emu_clock + dt,
              next_display_time := s.next_display_time + DISPLAY_TIME_NANO_SEC,
              next_screen_int_time := s.next_screen_int_time } u := by
          refine ⟨?_, ?_, ?_, ?_⟩
          · show s.next_display_time + DISPLAY_TIME_NANO_SEC = (u + 1) * 16666667
            rw [hP, hnd]; ring
          · exact hns
          · show s.emu_clock + dt ≤ s.next_screen_int_time
            omega
          · show s.next_display_time + DISPLAY_TIME_NANO_SEC ≤ s.emu_clock + dt + 16666667
            rw [hP]; omega
        obtain ⟨n, hn⟩ := ih _ u true hrest (by show s.emu_clock + dt + rest.length * 7142857 + 3 * 16666667 < 2 ^ 64; omega) hinv1
        refine ⟨n + 1, ?_⟩
        simp only [schedRun, hstep, Option.toList, List.singleton_append]
        rw [hn]
        rfl
      · -- no interrupt fires this step (the screen mark is even further out)
        have hnofire2 : ¬ s.next_screen_int_time ≤ s.emu_clock + dt := by omega
        have hstep : schedStep s dt = ({ s with emu_clock := s.emu_clock + dt }, none) := by
          rw [schedStep_nowrap s dt h1 h2 h3, if_neg hfire, if_neg hnofire2]
        have hinv1 : InvDisplayNext { s with emu_clock := s.emu_clock + dt } u := by
          exact ⟨hnd, hns, by show s.emu_clock + dt ≤ s.next_display_time; omega,
            by show s.next_display_time ≤ s.emu_clock + dt + 16666667; omega⟩
        obtain ⟨n, hn⟩ := ih _ u false hrest (by show s.emu_clock + dt + rest.length * 7142857 + 3 * 16666667 < 2 ^ 64; omega) hinv1
        refine ⟨n, ?_⟩
        simp only [schedRun, hstep, Option.toList, List.nil_append]
        exact hn
    | true =>
      obtain ⟨hnd, hns, hcle, hndle⟩ := hinv
      have h1 : s.emu_clock + dt < 2 ^ 64 := by omega
      have h2 : s.next_display_time + DISPLAY_TIME_NANO_SEC < 2 ^ 64 := by rw [hP]; omega
      have h3 : s.next_screen_int_time + DISPLAY_TIME_NANO_SEC < 2 ^ 64 := by rw [hP]; omega
      have hnofire1 : ¬ s.next_display_time ≤ s.emu_clock + dt := by omega
      by_cases hfire : s.next_screen_int_time ≤ s.emu_clock + dt
      · -- the screen interrupt fires; switch to the display-next invariant
        have hstep : schedStep s dt =
            ({ emu_clock := s.emu_clock + dt,
               next_display_time := s.next_display_time,
               next_screen_int_time := s.next_screen_int_time + DISPLAY_TIME_NANO_SEC },
             some IntSignal.RST_2) := by
          rw [schedStep_nowrap s dt h1 h2 h3, if_neg hnofire1, if_pos hfire]
        have hinv1 : InvDisplayNext
            { emu_clock := s.emu_clock + dt,
              next_display_time := s.next_display_time,
              next_screen_int_time := s.next_screen_int_time + DISPLAY_TIME_NANO_SEC }
            (u + 1) := by
          refine ⟨hnd, ?_, ?_, ?_⟩
          · show s.next_screen_int_time + DISPLAY_TIME_NANO_SEC = (u + 1) * 16666667 + 7142857
            rw [hP, hns]; ring
          · show s.emu_clock + dt ≤ s.next_display_time
            omega
          · show s.next_display_time ≤ s.emu_clock + dt + 16666667
            omega
        obtain ⟨n, hn⟩ := ih _ (u + 1) false hrest (by show s.emu_clock + dt + rest.length * 7142857 + 3 * 16666667 < 2 ^ 64; omega) hinv1
        refine ⟨n + 1, ?_⟩
        simp only [schedRun, hstep, Option.toList, List.singleton_append]
        rw [hn]
        rfl
      · have hstep : schedStep s dt = ({ s with emu_clock := s.emu_clock + dt }, none) := by
          rw [schedStep_nowrap s dt h1 h2 h3, if_neg hnofire1, if_neg hfire]
        have hinv1 : InvScreenNext { s with emu_clock := s.emu_clock + dt } u := by
          exact ⟨hnd, hns, by show s.emu_clock + dt ≤ s.next_screen_int_time; omega,
            by show s.next_display_time ≤ s.emu_clock + dt + 16666667; omega⟩
        obtain ⟨n, hn⟩ := ih _ u true hrest (by show s.emu_clock + dt + rest.length * 7142857 + 3 * 16666667 < 2 ^ 64; omega) hinv1
        refine ⟨n, ?_⟩
        simp only [schedRun, hstep, Option.toList, List.nil_append]
        exact hn

/-- C6 amended: from the initial schedule state, for any run whose
per-step emulated durations are at most 7_142_857 ns (far above any
single 8080 instruction's duration) and of at most 2^40 steps, the
interrupt stream is strictly alternating and STARTS WITH the
end-of-frame display interrupt RST_3 (fired immediately, since
next_display_time is initialized to 0), the mid-frame screen interrupt
RST_2 following it within the frame and the two alternating thereafter —
not, as the claim states, the mid-frame interrupt first. -/
theorem scheduler_alternates_display_first (dts : List Nat)
    (hdts : ∀ dt ∈ dts, dt ≤ 7142857)
    (hlen : dts.length ≤ 2 ^ 40) :
    (schedRun initSchedState dts).2
      = altSignals false (schedRun initSchedState dts).2.length := by
  have hb : initSchedState.emu_clock + dts.length * 7142857 + 3 * 16666667 < 2 ^ 64 := by
    show (0 : Nat) + dts.length * 7142857 + 3 * 16666667 < 2 ^ 64
    omega
  have hi : InvDisplayNext initSchedState 0 :=
    ⟨rfl, rfl, by decide, by decide⟩
  obtain ⟨n, hn⟩ := schedRun_alternates_aux dts initSchedState 0 false hdts hb hi
  rw [hn, altSignals_length]

/-- Witness for the C6 amended theorem: a run of four maximal steps fires
RST_3, RST_2, then RST_3 again, matching the alternating stream. -/
theorem scheduler_alternates_display_first_witness :
    (schedRun initSchedState [7142857, 7142857, 7142857, 7142857]).2
      = altSignals false
          (schedRun initSchedState [7142857, 7142857, 7142857, 7142857]).2.length :=
  scheduler_alternates_display_first [7142857, 7142857, 7142857, 7142857]
    (by intro dt hdt; fin_cases hdt <;> omega) (by decide)

end SpaceInvadersEmu
